import Mathlib

/-!
# Verification of the Recipe Import Parser (`recipes/services.py`)

Shallow embedding of `RecipeParserService`: the unit normalizer
(`_normalize_unit`), the per-item ingredient parser
(`_parse_ingredient_string`, including an executable backtracking model of
the two Python regular expressions it uses), the six field extractors and
the top-level `parse_recipe` routine.  HTML documents are modelled
abstractly as a record of query results (the BeautifulSoup operations the
code performs), so theorems quantify over arbitrary documents.

Python string primitives (`lower`, `strip`, `replace`) are modelled over
the character ranges the parser actually handles: ASCII plus the Cyrillic
block; `\s`, `\d` and `\w` are modelled as ASCII whitespace / ASCII digits /
alphanumerics-underscore-Cyrillic, which is faithful on the parser's
source-locale inputs.
-/

namespace RecipeParse

/-- ASCII whitespace, the characters Python's `\s` and `str.strip` handle
in the parser's inputs: space, tab, newline, carriage return, vertical tab,
form feed. -/
def isWs (c : Char) : Bool :=
  c == ' ' || c == '\t' || c == '\n' || c == '\r' ||
  c.toNat == 11 || c.toNat == 12

/-- Python `str.lower` restricted to ASCII letters and the Cyrillic block
(`А`..`Я` and `Ё`), the only cased characters the unit vocabulary uses. -/
def lowerChar (c : Char) : Char :=
  if 'A' ≤ c && c ≤ 'Z' then Char.ofNat (c.toNat + 32)
  else if 0x410 ≤ c.toNat && c.toNat ≤ 0x42F then Char.ofNat (c.toNat + 0x20)
  else if c.toNat == 0x401 then Char.ofNat 0x451
  else c

/-- `str.lower` on a whole string. -/
def lowerStr (s : String) : String :=
  String.mk (s.data.map lowerChar)

/-- `s.replace('.', '').replace(' ', '')`: drop periods and spaces. -/
def stripPS (s : String) : String :=
  String.mk (s.data.filter (fun c => !(c == '.' || c == ' ')))

/-- Python `str.strip()`: drop leading and trailing whitespace. -/
def pyStrip (s : String) : String :=
  String.mk (((s.data.dropWhile isWs).reverse.dropWhile isWs).reverse)

/-- `quantity.replace(',', '.')`: single-character replacement. -/
def replaceComma (s : String) : String :=
  String.mk (s.data.map (fun c => if c == ',' then '.' else c))

/-- The `unit_map` dictionary of `_normalize_unit`, in insertion order. -/
def unit_map : List (String × String) :=
  [("г", "г"), ("гр", "г"), ("грамм", "г"),
   ("мл", "мл"), ("кг", "кг"),
   ("л", "л"), ("литр", "л"),
   ("шт", "шт"), ("штук", "шт"),
   ("ст.л", "ст.л."), ("ст л", "ст.л."),
   ("ч.л", "ч.л."), ("ч л", "ч.л."),
   ("стакан", "стакан")]

/-- `_normalize_unit`: lowercase the input, drop periods and spaces, return
the value of the first dictionary key equal to it after the same
period/space stripping; otherwise return the input unchanged. -/
def normalize_unit (unit : String) : String :=
  let unit_lower := stripPS (lowerStr unit)
  match unit_map.find? (fun kv => stripPS kv.1 == unit_lower) with
  | some kv => kv.2
  | none => unit

/-- The canonical unit vocabulary: the distinct values of `unit_map`. -/
def canonicalUnits : List String :=
  ["г", "мл", "кг", "л", "шт", "ст.л.", "ч.л.", "стакан"]

/-! ## A backtracking regular-expression engine

Executable model of the Python `re` constructs the parser uses: ordered
alternation, greedy and lazy quantifiers, optional pieces, capture groups,
a lookahead and the `$` anchor, with Perl-style leftmost / first-alternative
/ greedy-prefers-longer backtracking semantics (continuation passing with
ordered choice).  Recursion is bounded by fuel; the fuel supplied by
`rmatch` is linear in the input and far exceeds the backtracking depth of
the parser's patterns. -/

/-- Regular-expression syntax.  `cls` is a single-character class, `star`
is greedy `*`, `starL` lazy `*?`, `opt` greedy `?`, `look` the lookahead
`(?=…)`, `eol` the end anchor `$`, `grp i r` a capture group. -/
inductive Rx where
  | eps : Rx
  | cls (p : Char → Bool) : Rx
  | seq (a b : Rx) : Rx
  | alt (a b : Rx) : Rx
  | star (a : Rx) : Rx
  | starL (a : Rx) : Rx
  | opt (a : Rx) : Rx
  | look (a : Rx) : Rx
  | eol : Rx
  | grp (i : Nat) (a : Rx) : Rx

/-- Captured groups: group index paired with the consumed characters.
The most recent capture of an index sits closest to the head. -/
abbrev Caps := List (Nat × List Char)

/-- The backtracking matcher.  `k` is the continuation receiving the
remaining input and captures; alternatives are tried left to right, greedy
quantifiers longest first, lazy ones shortest first.  Stars refuse empty
body iterations (Python's no-progress rule). -/
def mrun : Nat → Rx → List Char → Caps → (List Char → Caps → Option Caps) → Option Caps
  | 0, _, _, _, _ => none
  | fuel + 1, r, cs, caps, k =>
    match r with
    | .eps => k cs caps
    | .cls p =>
      match cs with
      | [] => none
      | c :: rest => if p c then k rest caps else none
    | .seq a b => mrun fuel a cs caps (fun cs' caps' => mrun fuel b cs' caps' k)
    | .alt a b => (mrun fuel a cs caps k).orElse (fun _ => mrun fuel b cs caps k)
    | .star a =>
      (mrun fuel a cs caps (fun cs' caps' =>
        if cs'.length < cs.length then mrun fuel (.star a) cs' caps' k else none)).orElse
        (fun _ => k cs caps)
    | .starL a =>
      (k cs caps).orElse (fun _ =>
        mrun fuel a cs caps (fun cs' caps' =>
          if cs'.length < cs.length then mrun fuel (.starL a) cs' caps' k else none))
    | .opt a => (mrun fuel a cs caps k).orElse (fun _ => k cs caps)
    | .look a =>
      match mrun fuel a cs caps (fun _ caps' => some caps') with
      | some _ => k cs caps
      | none => none
    | .eol => if cs = [] || cs = ['\n'] then k cs caps else none
    | .grp i a =>
      mrun fuel a cs caps (fun cs' caps' =>
        k cs' ((i, cs.take (cs.length - cs'.length)) :: caps'))

/-- Greedy `+`: one occurrence then a greedy star. -/
def Rx.plus (a : Rx) : Rx := .seq a (.star a)

/-- Lazy `+?`: one occurrence then a lazy star. -/
def Rx.plusL (a : Rx) : Rx := .seq a (.starL a)

/-- A literal string; `ci` compares case-insensitively (`re.IGNORECASE`). -/
def litRx (ci : Bool) : List Char → Rx
  | [] => .eps
  | c :: rest =>
    .seq (.cls (fun x => if ci then lowerChar x == lowerChar c else x == c))
      (litRx ci rest)

/-- Fuel that dominates the backtracking depth of the parser's patterns on
the given input. -/
def bigFuel (cs : List Char) : Nat := 64 * cs.length + 4096

/-- Anchored match (`re.match`): match at the start of the input, trailing
input allowed; returns the captures on success. -/
def rmatch (r : Rx) (cs : List Char) : Option Caps :=
  mrun (bigFuel cs) r cs [] (fun _ caps => some caps)

/-- Unanchored search (`re.search`): try each start position left to
right. -/
def rsearch (r : Rx) : List Char → Option Caps
  | [] => rmatch r []
  | c :: rest => (rmatch r (c :: rest)).orElse (fun _ => rsearch r rest)

/-- The content of capture group `i` (most recent capture wins). -/
def getGroup (caps : Caps) (i : Nat) : Option (List Char) :=
  (caps.find? (fun e => e.1 == i)).map (fun e => e.2)

/-! ## The two ingredient-line patterns of `_parse_ingredient_string` -/

/-- `\d`: ASCII digit. -/
def digitRx : Rx := .cls Char.isDigit

/-- `\s*`. -/
def wsStar : Rx := .star (.cls isWs)

/-- `\w`: letters, digits, underscore; Cyrillic letters included. -/
def isWordChar (c : Char) : Bool :=
  c.isAlphanum || c == '_' || (0x400 ≤ c.toNat && c.toNat ≤ 0x4FF)

/-- `.` (no DOTALL): any character but newline. -/
def dotRx : Rx := .cls (fun c => !(c == '\n'))

/-- `.` under DOTALL: any character. -/
def dotAllRx : Rx := .cls (fun _ => true)

/-- `(\d+(?:[.,]\d+)?)` without the group: the quantity sub-pattern. -/
def numRx : Rx :=
  .seq (Rx.plus digitRx)
    (.opt (.seq (.cls (fun c => c == '.' || c == ',')) (Rx.plus digitRx)))

/-- `\.?`. -/
def optDot : Rx := .opt (.cls (fun c => c == '.'))

/-- The unit alternation
`(г|мл|кг|л|шт|ст\.?\s*л\.?|ч\.?\s*л\.?|стакан\w*|штук\w*)` without the
group, alternatives in source order, case-insensitive. -/
def unitRx : Rx :=
  .alt (litRx true ['г'])
    (.alt (litRx true ['м', 'л'])
      (.alt (litRx true ['к', 'г'])
        (.alt (litRx true ['л'])
          (.alt (litRx true ['ш', 'т'])
            (.alt (.seq (litRx true ['с', 'т'])
                     (.seq optDot (.seq wsStar (.seq (litRx true ['л']) optDot))))
              (.alt (.seq (litRx true ['ч'])
                       (.seq optDot (.seq wsStar (.seq (litRx true ['л']) optDot))))
                (.alt (.seq (litRx true ['с', 'т', 'а', 'к', 'а', 'н'])
                         (.star (.cls isWordChar)))
                  (.seq (litRx true ['ш', 'т', 'у', 'к'])
                    (.star (.cls isWordChar))))))))))

/-- `[–—-]`: en dash, em dash, hyphen. -/
def dashRx : Rx := .cls (fun c => c == '–' || c == '—' || c == '-')

/-- Quantity-first pattern:
`(\d+(?:[.,]\d+)?)\s*(г|мл|кг|л|шт|ст\.?\s*л\.?|ч\.?\s*л\.?|стакан\w*|штук\w*)\.?\s*[–—-]?\s*(.+)`. -/
def pattern1 : Rx :=
  .seq (.grp 1 numRx)
    (.seq wsStar
      (.seq (.grp 2 unitRx)
        (.seq optDot
          (.seq wsStar
            (.seq (.opt dashRx)
              (.seq wsStar (.grp 3 (Rx.plus dotRx))))))))

/-- Name-first pattern:
`(.+?)\s*[–—-]\s*(\d+(?:[.,]\d+)?)\s*(г|мл|кг|л|шт|ст\.?\s*л\.?|ч\.?\s*л\.?|стакан\w*|штук\w*)`. -/
def pattern2 : Rx :=
  .seq (.grp 1 (Rx.plusL dotRx))
    (.seq wsStar
      (.seq dashRx
        (.seq wsStar
          (.seq (.grp 2 numRx)
            (.seq wsStar (.grp 3 unitRx))))))

/-- Run a three-group pattern against a line (`re.match`), returning the
captured triple in group order. -/
def runPat (r : Rx) (s : String) : Option (String × String × String) :=
  match rmatch r s.data with
  | none => none
  | some caps =>
    match getGroup caps 1, getGroup caps 2, getGroup caps 3 with
    | some a, some b, some c => some (String.mk a, String.mk b, String.mk c)
    | _, _, _ => none

/-- A parsed ingredient: the `{'name', 'quantity', 'unit'}` dictionary. -/
structure Ingredient where
  name : String
  quantity : String
  unit : String
  deriving Repr, DecidableEq

/-- `_parse_ingredient_string`: try the quantity-first pattern, then the
name-first pattern; on a match rewrite decimal commas, trim the name and
normalize the unit.  Otherwise keep lines longer than two characters whole
with synthetic quantity and unit, and drop shorter lines. -/
def parse_ingredient_string (text : String) : Option Ingredient :=
  match runPat pattern1 text with
  | some (quantity, unit, name) =>
    some ⟨pyStrip name, replaceComma quantity, normalize_unit (pyStrip unit)⟩
  | none =>
    match runPat pattern2 text with
    | some (name, quantity, unit) =>
      some ⟨pyStrip name, replaceComma quantity, normalize_unit (pyStrip unit)⟩
    | none =>
      if 2 < text.length then some ⟨text, "1", "шт"⟩ else none

/-! ## The document model and the field extractors

An `Elem` records the results of the BeautifulSoup element operations the
extractors perform; a `Doc` records the results of the document-level
queries.  Theorems quantify over arbitrary documents, so nothing about the
CSS-selector language itself needs to be modelled: `selectOne` is the
oracle `soup.select_one`. -/

/-- An HTML element as the parser observes it. -/
structure Elem where
  /-- `element.get_text(strip=True)`. -/
  textStrip : String
  /-- `element.get_text()`. -/
  text : String
  /-- `element.get('content')` (`none` when the attribute is absent). -/
  content : Option String
  /-- `element.find_all(['li', 'p'])`, document order. -/
  childrenLiP : List Elem
  /-- `element.find_all('li')`, document order. -/
  childrenLi : List Elem

/-- A leaf element carrying only text. -/
def textElem (t : String) : Elem := ⟨t, t, none, [], []⟩

/-- A list container whose `li` children are the given leaves. -/
def ulElem (items : List String) : Elem :=
  ⟨"", "", none, [], items.map textElem⟩

/-- A parsed page as the parser observes it. -/
structure Doc where
  /-- `soup.select_one(sel)`. -/
  selectOne : String → Option Elem := fun _ => none
  /-- `soup.find('title')`. -/
  findTitle : Option Elem := none
  /-- `soup.find_all('p', limit=3)`. -/
  findAllP3 : List Elem := []
  /-- `soup.find_all(['li', 'p'], class_=re.compile('ingredient'))`. -/
  findAllIngredientClass : List Elem := []
  /-- `soup.get_text()`. -/
  getText : String := ""

/-! ### `re.sub(r'\s*[|–-]\s*.+$', '', title)` for the title-tag fallback -/

/-- The character class `[|–-]`: pipe, en dash, hyphen. -/
def isTitleSep (c : Char) : Bool := c == '|' || c == '–' || c == '-'

/-- Can `.+$` match this suffix?  `.` excludes newlines and `$` matches at
the end or just before a trailing newline, so: non-empty and
newline-free, or a non-empty newline-free part followed by one final
newline. -/
def dotPlusDollar (u : List Char) : Bool :=
  match u.getLast? with
  | none => false
  | some last =>
    let core := if last == '\n' then u.dropLast else u
    !core.isEmpty && core.all (fun c => !(c == '\n'))

/-- After the separator, `\s*.+$`: some whitespace prefix can be skipped so
that the rest matches `.+$`. -/
def sepTail (u : List Char) : Bool :=
  dotPlusDollar u ||
    (match u with
     | [] => false
     | c :: rest => isWs c && sepTail rest)

/-- Does `\s*[|–-]\s*.+$` match starting exactly here?  `\s*` only crosses
whitespace, so the separator must be the first non-whitespace character. -/
def titleSubHere (u : List Char) : Bool :=
  match u with
  | [] => false
  | c :: rest => if isTitleSep c then sepTail rest else isWs c && titleSubHere rest

/-- What the match leaves behind at its own position: everything is
consumed except a trailing newline `$` stopped in front of. -/
def titleSubKept (u : List Char) : List Char :=
  if u.getLast? == some '\n' then ['\n'] else []

/-- `re.sub` of the suffix-stripping pattern: delete the leftmost match
(at most one match is possible since the match runs to the anchor). -/
def titleSub : List Char → List Char
  | [] => []
  | c :: rest =>
    if titleSubHere (c :: rest) then titleSubKept (c :: rest)
    else c :: titleSub rest

/-! ### The six field extractors -/

/-- Selector list of `_extract_title`, in source order. -/
def titleSelectors : List String :=
  ["h1.recipe-title", "h1[itemprop=\"name\"]", "h1.entry-title",
   ".recipe-header h1", "article h1", "h1"]

/-- `_extract_title`: first selector that matches an element wins (its
stripped text is returned as-is); otherwise the `<title>` tag with the
site-name suffix stripped; otherwise the placeholder. -/
def extract_title (doc : Doc) : String :=
  match titleSelectors.findSome? (fun sel => doc.selectOne sel) with
  | some element => element.textStrip
  | none =>
    match doc.findTitle with
    | some title_tag => String.mk (titleSub title_tag.textStrip.data)
    | none => "Рецепт без названия"

/-- Selector list of `_extract_description`, in source order. -/
def descriptionSelectors : List String :=
  ["div.recipe-description", "div[itemprop=\"description\"]",
   "meta[name=\"description\"]", "meta[property=\"og:description\"]",
   ".recipe-intro", "article p:first-of-type"]

/-- Python `selector.startswith(prefix)`. -/
def pyStartsWith (s pre : String) : Bool := pre.data.isPrefixOf s.data

/-- The selector loop of `_extract_description`: selectors beginning with
`meta` require a present, non-empty `content` attribute (and return it
stripped); the rest return the matched element's stripped text, empty or
not. -/
def descLoop (doc : Doc) : List String → Option String
  | [] => none
  | sel :: rest =>
    if pyStartsWith sel "meta" then
      match doc.selectOne sel with
      | some element =>
        match element.content with
        | some c => if c ≠ "" then some (pyStrip c) else descLoop doc rest
        | none => descLoop doc rest
      | none => descLoop doc rest
    else
      match doc.selectOne sel with
      | some element => some element.textStrip
      | none => descLoop doc rest

/-- `_extract_description`: selector loop, then the first paragraph of the
page, then the placeholder. -/
def extract_description (doc : Doc) : String :=
  match descLoop doc descriptionSelectors with
  | some d => d
  | none =>
    match doc.findAllP3.head? with
    | some p => p.textStrip
    | none => "Описание отсутствует"

/-- Selector list of `_extract_instructions`, in source order. -/
def instructionSelectors : List String :=
  ["div.recipe-instructions", "div[itemprop=\"recipeInstructions\"]",
   "ol.recipe-steps", "div.instructions", ".recipe-directions"]

/-- `enumerate(items, 1)` paired formatting and filtering of one matched
container: keep steps with non-empty text longer than ten characters,
numbered by their position among all `li`/`p` children. -/
def numberSteps (items : List Elem) : List String :=
  (items.enumFrom 1).filterMap (fun st =>
    let t := st.2.textStrip
    if t ≠ "" && 10 < t.length then some (toString st.1 ++ ". " ++ t) else none)

/-- The full-text fallback pattern of `_extract_instructions`:
`(Приготовление|Инструкция|Способ приготовления)[:\s]+(.*?)(?=Ингредиенты|$)`
with DOTALL and IGNORECASE. -/
def instrFallbackRx : Rx :=
  .seq (.grp 1 (.alt (litRx true "Приготовление".data)
                  (.alt (litRx true "Инструкция".data)
                    (litRx true "Способ приготовления".data))))
    (.seq (Rx.plus (.cls (fun c => c == ':' || isWs c)))
      (.seq (.grp 2 (.starL dotAllRx))
        (.look (.alt (litRx true "Ингредиенты".data) .eol))))

/-- The selector loop of `_extract_instructions`. -/
def instrLoop (doc : Doc) : List String → Option String
  | [] => none
  | sel :: rest =>
    match doc.selectOne sel with
    | some element =>
      let steps := numberSteps element.childrenLiP
      if steps ≠ [] then some (String.intercalate "\n" steps)
      else instrLoop doc rest
    | none => instrLoop doc rest

/-- `_extract_instructions`: structured containers first, then a regex
search over the whole page text, then the placeholder. -/
def extract_instructions (doc : Doc) : String :=
  match instrLoop doc instructionSelectors with
  | some s => s
  | none =>
    match rsearch instrFallbackRx doc.getText.data with
    | some caps => pyStrip (String.mk ((getGroup caps 2).getD []))
    | none => "Инструкции отсутствуют"

/-- Value of a digit run, as Python `int`. -/
def digitsToNat (w : List Char) : Nat :=
  w.foldl (fun n c => 10 * n + (c.toNat - '0'.toNat)) 0

/-- `re.search(r'(\d+)', text)`: leftmost maximal digit run. -/
def firstNumber (s : String) : Option Nat :=
  match rsearch (.grp 1 (Rx.plus digitRx)) s.data with
  | some caps => ((getGroup caps 1).map digitsToNat)
  | none => none

/-- `re.search` for a digit run followed (after optional whitespace) by a
literal word, as in `(\d+)\s*мин` — case-sensitive, no flags. -/
def numberBefore (word : String) (s : String) : Option Nat :=
  match rsearch (.seq (.grp 1 (Rx.plus digitRx))
                  (.seq wsStar (litRx false word.data))) s.data with
  | some caps => ((getGroup caps 1).map digitsToNat)
  | none => none

/-- Selector list of `_extract_cooking_time`, in source order. -/
def timeSelectors : List String :=
  ["time[itemprop=\"totalTime\"]", "span.cooking-time", ".recipe-time"]

/-- The selector loop of `_extract_cooking_time` / `_extract_servings`: a
matched element only wins if its raw text contains a digit run. -/
def numLoop (doc : Doc) : List String → Option Nat
  | [] => none
  | sel :: rest =>
    match doc.selectOne sel with
    | some element =>
      match firstNumber element.text with
      | some n => some n
      | none => numLoop doc rest
    | none => numLoop doc rest

/-- `_extract_cooking_time`: selectors, then `(\d+)\s*мин` over the page
text, then the default of 30 minutes. -/
def extract_cooking_time (doc : Doc) : Nat :=
  match numLoop doc timeSelectors with
  | some n => n
  | none =>
    match numberBefore "мин" doc.getText with
    | some n => n
    | none => 30

/-- Selector list of `_extract_servings`, in source order. -/
def servingsSelectors : List String :=
  ["span[itemprop=\"recipeYield\"]", ".recipe-servings", ".servings"]

/-- `_extract_servings`: selectors, then `(\d+)\s*порц` over the page
text, then the default of 4 servings. -/
def extract_servings (doc : Doc) : Nat :=
  match numLoop doc servingsSelectors with
  | some n => n
  | none =>
    match numberBefore "порц" doc.getText with
    | some n => n
    | none => 4

/-! ### The ingredient-list extractor -/

/-- Selector list of `_extract_ingredients`, in source order. -/
def ingredientSelectors : List String :=
  ["ul.recipe-ingredients", "ul[itemprop=\"recipeIngredient\"]",
   "div.ingredients ul", ".ingredient-list"]

/-- Parse the non-empty texts of a list of items, keeping successes. -/
def parseItems (items : List Elem) : List Ingredient :=
  items.filterMap (fun item =>
    let text := item.textStrip
    if text ≠ "" then parse_ingredient_string text else none)

/-- The structured-container loop of `_extract_ingredients`: `inl l` is
the early `return ingredients` with a non-empty accumulator, `inr acc`
falls out of the loop with the accumulator as left. -/
def ingLoop (doc : Doc) : List String → List Ingredient →
    List Ingredient ⊕ List Ingredient
  | [], acc => .inr acc
  | sel :: rest, acc =>
    match doc.selectOne sel with
    | some element =>
      let acc' := acc ++ parseItems element.childrenLi
      if acc' ≠ [] then .inl acc' else ingLoop doc rest acc'
    | none => ingLoop doc rest acc

/-- The two hardcoded placeholder ingredients. -/
def placeholderIngredients : List Ingredient :=
  [⟨"Ингредиент 1", "100", "г"⟩, ⟨"Ингредиент 2", "200", "мл"⟩]

/-- `_extract_ingredients`: structured containers (first selector that
yields parsed items wins), then the class-pattern fallback, then the two
placeholders. -/
def extract_ingredients (doc : Doc) : List Ingredient :=
  match ingLoop doc ingredientSelectors [] with
  | .inl ingredients => ingredients
  | .inr acc =>
    let ingredients := acc ++ parseItems doc.findAllIngredientClass
    if ingredients = [] then placeholderIngredients else ingredients

/-! ### The top-level parse -/

/-- The recipe dictionary `parse_recipe` builds. -/
structure RecipeData where
  title : String
  description : String
  instructions : String
  ingredients : List Ingredient
  cooking_time : Nat
  servings : Nat
  deriving Repr, DecidableEq

/-- The record built from a fetched document. -/
def buildRecipe (doc : Doc) : RecipeData :=
  { title := extract_title doc
    description := extract_description doc
    instructions := extract_instructions doc
    ingredients := extract_ingredients doc
    cooking_time := extract_cooking_time doc
    servings := extract_servings doc }

/-- `parse_recipe`: the fetch outcome is passed as `none` (fetch failed:
network error, timeout, bad status, unparseable content) or `some doc`.
A failed fetch returns `None` before any extractor runs; afterwards an
empty (falsy) title discards the record. -/
def parse_recipe (fetched : Option Doc) : Option RecipeData :=
  match fetched with
  | none => none
  | some doc =>
    let recipe_data := buildRecipe doc
    if recipe_data.title = "" then none else some recipe_data

end RecipeParse

namespace RecipeParse

/-! ## Concrete documents used as counterexamples and witnesses -/

/-- A document on which every query misses: empty/garbage HTML. -/
def emptyDoc : Doc := {}

/-- A page whose only heading is empty but whose `<title>` tag is not:
`<html><head><title>Вкусный суп</title></head><body><h1></h1></body></html>`. -/
def docEmptyH1 : Doc :=
  { selectOne := fun sel => if sel = "h1" then some (textElem "") else none,
    findTitle := some (textElem "Вкусный суп") }

/-- A page whose first title selector matches an empty heading and whose
meta description carries padded content. -/
def docMetaDesc : Doc :=
  { selectOne := fun sel =>
      if sel = "h1.recipe-title" then some (textElem "")
      else if sel = "meta[name=\"description\"]" then
        some ⟨"", "", some "Вкусный борщ ", [], []⟩
      else none }

/-! ## The quantity-shape invariant (metatheory of the engine)

`NumShapeL` is the language of `\d+(?:[.,]\d+)?` as a predicate on
character lists; `QuantShape` is the same shape after the decimal comma is
rewritten to a point.  `GoodAt qi r` singles out patterns whose group `qi`
is exactly the quantity sub-pattern, and the preservation lemma below shows
every capture the matcher records at that index lies in `NumShapeL`. -/

/-- The language of the quantity sub-pattern `\d+(?:[.,]\d+)?`. -/
def NumShapeL (w : List Char) : Prop :=
  ∃ d1 : List Char, d1 ≠ [] ∧ (∀ c ∈ d1, c.isDigit = true) ∧
    (w = d1 ∨ ∃ sep d2, (sep = '.' ∨ sep = ',') ∧ d2 ≠ [] ∧
      (∀ c ∈ d2, c.isDigit = true) ∧ w = d1 ++ sep :: d2)

/-- A digit run, optionally a point and a second digit run: the shape of
every quantity the per-item parser emits. -/
def QuantShape (s : String) : Prop :=
  ∃ d1 : List Char, d1 ≠ [] ∧ (∀ c ∈ d1, c.isDigit = true) ∧
    (s.data = d1 ∨ ∃ d2, d2 ≠ [] ∧ (∀ c ∈ d2, c.isDigit = true) ∧
      s.data = d1 ++ '.' :: d2)

/-- Patterns containing no capture group at all. -/
def grpFree : Rx → Bool
  | .eps => true
  | .cls _ => true
  | .eol => true
  | .seq a b => grpFree a && grpFree b
  | .alt a b => grpFree a && grpFree b
  | .star a => grpFree a
  | .starL a => grpFree a
  | .opt a => grpFree a
  | .look a => grpFree a
  | .grp _ _ => false

/-- Patterns whose capture group `qi` can only be the quantity
sub-pattern `numRx`. -/
inductive GoodAt (qi : Nat) : Rx → Prop
  | eps : GoodAt qi .eps
  | cls {p} : GoodAt qi (.cls p)
  | eol : GoodAt qi .eol
  | seq {a b} : GoodAt qi a → GoodAt qi b → GoodAt qi (.seq a b)
  | alt {a b} : GoodAt qi a → GoodAt qi b → GoodAt qi (.alt a b)
  | star {a} : GoodAt qi a → GoodAt qi (.star a)
  | starL {a} : GoodAt qi a → GoodAt qi (.starL a)
  | opt {a} : GoodAt qi a → GoodAt qi (.opt a)
  | look {a} : GoodAt qi a → GoodAt qi (.look a)
  | grpNum : GoodAt qi (.grp qi numRx)
  | grpOther {i a} : i ≠ qi → GoodAt qi a → GoodAt qi (.grp i a)

/-- Every capture recorded at index `qi` lies in the quantity language. -/
def CapsOK (qi : Nat) (caps : Caps) : Prop :=
  ∀ e ∈ caps, e.1 = qi → NumShapeL e.2

/-! ## Supporting lemmas for the unit normalizer -/

/-- Keys of `unit_map` that agree after period/space stripping map to the
same canonical value (so which of them `find?` hits first is irrelevant). -/
lemma unit_map_strip_injective_on_values :
    ∀ kv1 ∈ unit_map, ∀ kv2 ∈ unit_map,
      stripPS kv1.1 = stripPS kv2.1 → kv1.2 = kv2.2 := by
  decide

/-- `normalize_unit` only depends on the stripped lowercase form of its
input, as long as some key matches; the value returned is the value of any
matching key. -/
lemma normalize_unit_of_matching_key (v : String) (kv : String × String)
    (hmem : kv ∈ unit_map)
    (hkey : stripPS (lowerStr v) = stripPS kv.1) :
    normalize_unit v = kv.2 := by
  have hdef : normalize_unit v =
      match unit_map.find? (fun p => stripPS p.1 == stripPS (lowerStr v)) with
      | some kv => kv.2
      | none => v := rfl
  have hsome : (unit_map.find? (fun p => stripPS p.1 == stripPS (lowerStr v))).isSome := by
    rw [List.find?_isSome]
    exact ⟨kv, hmem, by simp [hkey]⟩
  obtain ⟨kv', hfind⟩ := Option.isSome_iff_exists.mp hsome
  have hmem' : kv' ∈ unit_map := List.mem_of_find?_eq_some hfind
  have hpred : stripPS kv'.1 = stripPS (lowerStr v) := by
    have := List.find?_some hfind
    simpa using this
  rw [hdef, hfind]
  exact unit_map_strip_injective_on_values kv' hmem' kv hmem (hpred.trans hkey)

/-! ## Supporting lemmas for the ingredient-list extractor -/

/-- The structured-container loop only returns early with a non-empty
list. -/
lemma ingLoop_inl_ne_nil (doc : Doc) :
    ∀ sels acc l, ingLoop doc sels acc = .inl l → l ≠ [] := by
  intro sels
  induction sels with
  | nil => intro acc l h; simp [ingLoop] at h
  | cons sel rest ih =>
    intro acc l h
    unfold ingLoop at h
    cases hsel : doc.selectOne sel with
    | some element =>
      rw [hsel] at h
      dsimp only at h
      by_cases hne : acc ++ parseItems element.childrenLi ≠ []
      · rw [if_pos hne] at h
        cases h
        exact hne
      · rw [if_neg hne] at h
        exact ih _ l h
    | none =>
      rw [hsel] at h
      exact ih acc l h

/-! ## Lemmas about the matcher -/

/-- Split an `Option.orElse` equation into its two cases. -/
lemma orElse_eq_some {α : Type} (a : Option α) (f : Unit → Option α) (v : α) :
    a.orElse f = some v ↔ a = some v ∨ (a = none ∧ f () = some v) := by
  cases a <;> simp [Option.orElse]

/-- A character class consumes exactly one matching character. -/
lemma mrun_cls {fuel : Nat} {p : Char → Bool} {cs caps k res}
    (h : mrun fuel (.cls p) cs caps k = some res) :
    ∃ c cs', cs = c :: cs' ∧ p c = true ∧ k cs' caps = some res := by
  match fuel with
  | 0 => simp [mrun] at h
  | fuel + 1 =>
    match cs with
    | [] => simp [mrun] at h
    | c :: cs' =>
      simp only [mrun] at h
      by_cases hp : p c = true
      · rw [if_pos hp] at h
        exact ⟨c, cs', rfl, hp, h⟩
      · rw [if_neg hp] at h
        cases h

/-- A greedy star over a character class consumes a (possibly empty) run
of matching characters and leaves the captures alone. -/
lemma mrun_star_cls : ∀ (fuel : Nat) {p : Char → Bool} {cs caps k res},
    mrun fuel (.star (.cls p)) cs caps k = some res →
    ∃ w cs', cs = w ++ cs' ∧ (∀ c ∈ w, p c = true) ∧ k cs' caps = some res := by
  intro fuel
  induction fuel with
  | zero => intro p cs caps k res h; simp [mrun] at h
  | succ fuel ih =>
    intro p cs caps k res h
    simp only [mrun] at h
    rcases (orElse_eq_some _ _ _).mp h with h1 | ⟨_, h2⟩
    · obtain ⟨c, cs1, rfl, hp, hk⟩ := mrun_cls h1
      rw [if_pos (by simp)] at hk
      obtain ⟨w, cs', rfl, hall, hk'⟩ := ih hk
      refine ⟨c :: w, cs', rfl, ?_, hk'⟩
      intro x hx
      rcases List.mem_cons.mp hx with rfl | hx
      · exact hp
      · exact hall x hx
    · exact ⟨[], cs, rfl, by simp, h2⟩

/-- A greedy plus over a character class consumes a non-empty run of
matching characters. -/
lemma mrun_plus_cls : ∀ (fuel : Nat) {p : Char → Bool} {cs caps k res},
    mrun fuel (Rx.plus (.cls p)) cs caps k = some res →
    ∃ w cs', cs = w ++ cs' ∧ w ≠ [] ∧ (∀ c ∈ w, p c = true) ∧
      k cs' caps = some res := by
  intro fuel p cs caps k res h
  match fuel with
  | 0 => simp [mrun] at h
  | fuel + 1 =>
    simp only [Rx.plus, mrun] at h
    obtain ⟨c, cs1, rfl, hp, hk⟩ := mrun_cls h
    obtain ⟨w, cs', rfl, hall, hk'⟩ := mrun_star_cls fuel hk
    refine ⟨c :: w, cs', rfl, by simp, ?_, hk'⟩
    intro x hx
    rcases List.mem_cons.mp hx with rfl | hx
    · exact hp
    · exact hall x hx

/-- The quantity sub-pattern consumes a word of `NumShapeL` and leaves the
captures alone. -/
lemma mrun_numRx : ∀ (fuel : Nat) {cs caps k res},
    mrun fuel numRx cs caps k = some res →
    ∃ w cs', cs = w ++ cs' ∧ NumShapeL w ∧ k cs' caps = some res := by
  intro fuel cs caps k res h
  match fuel with
  | 0 => simp [mrun] at h
  | fuel + 1 =>
    simp only [numRx, mrun] at h
    obtain ⟨w1, cs1, rfl, hne1, hdig1, hk1⟩ := mrun_plus_cls fuel h
    match fuel with
    | 0 => simp [mrun] at hk1
    | fuel + 1 =>
      simp only [mrun] at hk1
      rcases (orElse_eq_some _ _ _).mp hk1 with hA | ⟨_, hB⟩
      · match fuel with
        | 0 => simp [mrun] at hA
        | fuel + 1 =>
          simp only [mrun] at hA
          obtain ⟨c, cs2, hcs1, hsep, hk2⟩ := mrun_cls hA
          obtain ⟨w2, cs', hcs2, hne2, hdig2, hk'⟩ := mrun_plus_cls fuel hk2
          refine ⟨w1 ++ c :: w2, cs', ?_, ?_, hk'⟩
          · rw [hcs1, hcs2]
            simp
          · refine ⟨w1, hne1, hdig1, Or.inr ⟨c, w2, ?_, hne2, hdig2, rfl⟩⟩
            have : (c == '.' || c == ',') = true := hsep
            rcases Bool.or_eq_true_iff.mp this with hc | hc
            · exact Or.inl (by simpa using hc)
            · exact Or.inr (by simpa using hc)
      · exact ⟨w1, cs1, rfl, ⟨w1, hne1, hdig1, Or.inl rfl⟩, hB⟩

/-- Group-free patterns are `GoodAt` any index. -/
lemma goodAt_of_grpFree (qi : Nat) : ∀ r, grpFree r = true → GoodAt qi r := by
  intro r
  induction r with
  | eps => intro _; exact GoodAt.eps
  | cls p => intro _; exact GoodAt.cls
  | eol => intro _; exact GoodAt.eol
  | seq a b iha ihb =>
    intro h
    rcases Bool.and_eq_true_iff.mp (by simpa [grpFree] using h) with ⟨ha, hb⟩
    exact GoodAt.seq (iha ha) (ihb hb)
  | alt a b iha ihb =>
    intro h
    rcases Bool.and_eq_true_iff.mp (by simpa [grpFree] using h) with ⟨ha, hb⟩
    exact GoodAt.alt (iha ha) (ihb hb)
  | star a iha => intro h; exact GoodAt.star (iha (by simpa [grpFree] using h))
  | starL a iha => intro h; exact GoodAt.starL (iha (by simpa [grpFree] using h))
  | opt a iha => intro h; exact GoodAt.opt (iha (by simpa [grpFree] using h))
  | look a iha => intro h; exact GoodAt.look (iha (by simpa [grpFree] using h))
  | grp i a iha => intro h; simp [grpFree] at h

/-- The preservation lemma: on a `GoodAt` pattern the matcher only ever
hands continuations capture lists whose index-`qi` entries lie in
`NumShapeL`, so a successful run ends with such a list. -/
lemma mrun_capsOK (qi : Nat) : ∀ (fuel : Nat) (r : Rx) cs caps k (res : Caps),
    GoodAt qi r → CapsOK qi caps →
    (∀ cs' caps' res', CapsOK qi caps' → k cs' caps' = some res' → CapsOK qi res') →
    mrun fuel r cs caps k = some res → CapsOK qi res := by
  intro fuel
  induction fuel with
  | zero => intro r cs caps k res _ _ _ h; simp [mrun] at h
  | succ fuel ih =>
    intro r cs caps k res hg hcaps hk h
    cases hg with
    | eps => exact hk _ _ _ hcaps (by simpa [mrun] using h)
    | @cls p =>
      simp only [mrun] at h
      cases cs with
      | nil => cases h
      | cons c cs' =>
        dsimp only at h
        by_cases hp : p c = true
        · rw [if_pos hp] at h
          exact hk _ _ _ hcaps h
        · rw [if_neg hp] at h
          cases h
    | eol =>
      simp only [mrun] at h
      by_cases hc : (cs = [] || cs = ['\n']) = true
      · rw [if_pos hc] at h
        exact hk _ _ _ hcaps h
      · rw [if_neg hc] at h
        cases h
    | seq hga hgb =>
      simp only [mrun] at h
      refine ih _ _ _ _ _ hga hcaps ?_ h
      intro cs' caps' res' hcaps' hmid
      exact ih _ _ _ _ _ hgb hcaps' hk hmid
    | alt hga hgb =>
      simp only [mrun] at h
      rcases (orElse_eq_some _ _ _).mp h with h1 | ⟨_, h2⟩
      · exact ih _ _ _ _ _ hga hcaps hk h1
      · exact ih _ _ _ _ _ hgb hcaps hk h2
    | @star a hga =>
      simp only [mrun] at h
      rcases (orElse_eq_some _ _ _).mp h with h1 | ⟨_, h2⟩
      · refine ih _ _ _ _ _ hga hcaps ?_ h1
        intro cs' caps' res' hcaps' hmid
        by_cases hlt : cs'.length < cs.length
        · rw [if_pos hlt] at hmid
          exact ih _ _ _ _ _ (GoodAt.star hga) hcaps' hk hmid
        · rw [if_neg hlt] at hmid
          cases hmid
      · exact hk _ _ _ hcaps h2
    | @starL a hga =>
      simp only [mrun] at h
      rcases (orElse_eq_some _ _ _).mp h with h1 | ⟨_, h2⟩
      · exact hk _ _ _ hcaps h1
      · refine ih _ _ _ _ _ hga hcaps ?_ h2
        intro cs' caps' res' hcaps' hmid
        by_cases hlt : cs'.length < cs.length
        · rw [if_pos hlt] at hmid
          exact ih _ _ _ _ _ (GoodAt.starL hga) hcaps' hk hmid
        · rw [if_neg hlt] at hmid
          cases hmid
    | opt hga =>
      simp only [mrun] at h
      rcases (orElse_eq_some _ _ _).mp h with h1 | ⟨_, h2⟩
      · exact ih _ _ _ _ _ hga hcaps hk h1
      · exact hk _ _ _ hcaps h2
    | @look a hga =>
      simp only [mrun] at h
      cases hin : mrun fuel a cs caps (fun _ caps' => some caps') with
      | some c0 =>
        rw [hin] at h
        exact hk _ _ _ hcaps h
      | none =>
        rw [hin] at h
        cases h
    | grpNum =>
      simp only [mrun] at h
      obtain ⟨w, cs', hcs, hshape, hk'⟩ := mrun_numRx fuel h
      have htake : cs.take (cs.length - cs'.length) = w := by
        subst hcs
        rw [show (w ++ cs').length - cs'.length = w.length by simp]
        exact List.take_left w cs'
      rw [htake] at hk'
      refine hk _ _ _ ?_ hk'
      intro e he _
      rcases List.mem_cons.mp he with rfl | hmem
      · exact hshape
      · exact hcaps e hmem (by assumption)
    | @grpOther i a hne hga =>
      simp only [mrun] at h
      refine ih _ _ _ _ _ hga hcaps ?_ h
      intro cs' caps' res' hcaps' hmid
      refine hk _ _ _ ?_ hmid
      intro e he hqi
      rcases List.mem_cons.mp he with rfl | hmem
      · exact absurd hqi hne
      · exact hcaps' e hmem hqi

/-- A successful anchored match of a `GoodAt` pattern yields an OK capture
list. -/
lemma rmatch_capsOK {qi : Nat} {r : Rx} {cs caps}
    (hg : GoodAt qi r) (h : rmatch r cs = some caps) : CapsOK qi caps := by
  refine mrun_capsOK qi _ r cs [] _ caps hg ?_ ?_ h
  · intro e he
    cases he
  · intro cs' caps' res' hcaps' hsome
    cases hsome
    exact hcaps'

/-- Reading a group out of an OK capture list yields a quantity-shaped
word. -/
lemma getGroup_shape {qi : Nat} {caps : Caps} {w : List Char}
    (hOK : CapsOK qi caps) (h : getGroup caps qi = some w) : NumShapeL w := by
  unfold getGroup at h
  cases hfind : caps.find? (fun e => e.1 == qi) with
  | none => rw [hfind] at h; cases h
  | some e =>
    rw [hfind] at h
    have hmem := List.mem_of_find?_eq_some hfind
    have hpred : e.1 = qi := by simpa using List.find?_some hfind
    cases h
    exact hOK e hmem hpred

/-- Group 1 of the quantity-first pattern is the quantity. -/
lemma goodAt_pattern1 : GoodAt 1 pattern1 := by
  refine GoodAt.seq GoodAt.grpNum ?_
  refine GoodAt.seq (goodAt_of_grpFree 1 wsStar rfl) ?_
  refine GoodAt.seq (GoodAt.grpOther (by decide) (goodAt_of_grpFree 1 unitRx rfl)) ?_
  refine GoodAt.seq (goodAt_of_grpFree 1 optDot rfl) ?_
  refine GoodAt.seq (goodAt_of_grpFree 1 wsStar rfl) ?_
  refine GoodAt.seq (goodAt_of_grpFree 1 (.opt dashRx) rfl) ?_
  exact GoodAt.seq (goodAt_of_grpFree 1 wsStar rfl)
    (GoodAt.grpOther (by decide) (goodAt_of_grpFree 1 (Rx.plus dotRx) rfl))

/-- Group 2 of the name-first pattern is the quantity. -/
lemma goodAt_pattern2 : GoodAt 2 pattern2 := by
  refine GoodAt.seq
    (GoodAt.grpOther (by decide) (goodAt_of_grpFree 2 (Rx.plusL dotRx) rfl)) ?_
  refine GoodAt.seq (goodAt_of_grpFree 2 wsStar rfl) ?_
  refine GoodAt.seq (goodAt_of_grpFree 2 dashRx rfl) ?_
  refine GoodAt.seq (goodAt_of_grpFree 2 wsStar rfl) ?_
  exact GoodAt.seq GoodAt.grpNum
    (GoodAt.seq (goodAt_of_grpFree 2 wsStar rfl)
      (GoodAt.grpOther (by decide) (goodAt_of_grpFree 2 unitRx rfl)))

/-- The quantity captured by the quantity-first pattern is
quantity-shaped. -/
lemma runPat1_quantity {text q u n : String}
    (h : runPat pattern1 text = some (q, u, n)) : NumShapeL q.data := by
  unfold runPat at h
  cases hm : rmatch pattern1 text.data with
  | none => rw [hm] at h; cases h
  | some caps =>
    rw [hm] at h
    dsimp only at h
    have hOK := rmatch_capsOK goodAt_pattern1 hm
    cases hg1 : getGroup caps 1 with
    | none => rw [hg1] at h; dsimp only at h; cases h
    | some w1 =>
      rw [hg1] at h
      cases hg2 : getGroup caps 2 with
      | none => rw [hg2] at h; dsimp only at h; cases h
      | some w2 =>
        rw [hg2] at h
        cases hg3 : getGroup caps 3 with
        | none => rw [hg3] at h; dsimp only at h; cases h
        | some w3 =>
          rw [hg3] at h
          dsimp only at h
          cases h
          exact getGroup_shape hOK hg1

/-- The quantity captured by the name-first pattern is quantity-shaped. -/
lemma runPat2_quantity {text q u n : String}
    (h : runPat pattern2 text = some (n, q, u)) : NumShapeL q.data := by
  unfold runPat at h
  cases hm : rmatch pattern2 text.data with
  | none => rw [hm] at h; cases h
  | some caps =>
    rw [hm] at h
    dsimp only at h
    have hOK := rmatch_capsOK goodAt_pattern2 hm
    cases hg1 : getGroup caps 1 with
    | none => rw [hg1] at h; dsimp only at h; cases h
    | some w1 =>
      rw [hg1] at h
      cases hg2 : getGroup caps 2 with
      | none => rw [hg2] at h; dsimp only at h; cases h
      | some w2 =>
        rw [hg2] at h
        cases hg3 : getGroup caps 3 with
        | none => rw [hg3] at h; dsimp only at h; cases h
        | some w3 =>
          rw [hg3] at h
          dsimp only at h
          cases h
          exact getGroup_shape hOK hg2

/-- Digits are unchanged by the comma-to-point rewrite. -/
lemma map_commaFix_digits {l : List Char} (h : ∀ c ∈ l, c.isDigit = true) :
    l.map (fun c => if c == ',' then '.' else c) = l := by
  induction l with
  | nil => rfl
  | cons c l ihl =>
    have hc : (c == ',') = false := by
      cases hcq : (c == ',') with
      | true =>
        have : c = ',' := by simpa using hcq
        subst this
        have := h ',' (List.mem_cons_self _ _)
        simp [Char.isDigit] at this
      | false => rfl
    simp only [List.map_cons, hc, if_neg]
    rw [ihl (fun x hx => h x (List.mem_cons_of_mem _ hx))]
    simp [hc]

/-- Rewriting the decimal comma of a raw quantity capture yields the
emitted quantity shape. -/
lemma quantShape_replaceComma {q : String} (h : NumShapeL q.data) :
    QuantShape (replaceComma q) := by
  obtain ⟨d1, hne, hdig, hcase⟩ := h
  have hmap : (replaceComma q).data =
      q.data.map (fun c => if c == ',' then '.' else c) := rfl
  rcases hcase with hq | ⟨sep, d2, hsep, hne2, hdig2, hq⟩
  · refine ⟨d1, hne, hdig, Or.inl ?_⟩
    rw [hmap, hq]
    exact map_commaFix_digits hdig
  · refine ⟨d1, hne, hdig, Or.inr ⟨d2, hne2, hdig2, ?_⟩⟩
    rw [hmap, hq, List.map_append, List.map_cons]
    rw [map_commaFix_digits hdig, map_commaFix_digits hdig2]
    have hsepmap : (if sep == ',' then '.' else sep) = '.' := by
      rcases hsep with rfl | rfl <;> decide
    rw [hsepmap]

end RecipeParse

namespace RecipeParse

/-! ## The claims -/

/-- Claim C1, counterexample: on an empty document every title strategy and
the title-tag fallback miss, the extractor yields only the generic
placeholder, and yet the top-level parse returns a record — not, as
claimed, no record. -/
theorem c1_placeholder_title_cex :
    extract_title emptyDoc = "Рецепт без названия" ∧
    parse_recipe (some emptyDoc) ≠ none := by
  constructor
  · rfl
  · decide

/-- Claim C1, amended: when title extraction falls through to the generic
placeholder the top-level parse routine does NOT fail: the placeholder is
non-empty, so the parse returns the full record containing it.  The parse
returns no record only when the extracted title is the empty string. -/
theorem c1_placeholder_title_returns_record (doc : Doc)
    (h : extract_title doc = "Рецепт без названия") :
    parse_recipe (some doc) = some (buildRecipe doc) := by
  show (if (buildRecipe doc).title = "" then none else some (buildRecipe doc)) =
    some (buildRecipe doc)
  have htitle : (buildRecipe doc).title = "Рецепт без названия" := h
  rw [htitle, if_neg (by decide)]

/-- Witness for the amended C1 at the empty document. -/
theorem c1_witness :
    extract_title emptyDoc = "Рецепт без названия" ∧
    parse_recipe (some emptyDoc) = some (buildRecipe emptyDoc) :=
  ⟨rfl, c1_placeholder_title_returns_record emptyDoc rfl⟩

/-- Claim C2, counterexample: in the title extractor a selector match with
empty text DOES terminate the search: on `docEmptyH1` the `h1` strategy
matches an empty element and the extractor returns `""`, although the
title-tag fallback held the non-empty text `Вкусный суп`. -/
theorem c2_empty_match_terminates_cex :
    docEmptyH1.selectOne "h1" = some (textElem "") ∧
    (textElem "").textStrip = "" ∧
    docEmptyH1.findTitle = some (textElem "Вкусный суп") ∧
    extract_title docEmptyH1 = "" :=
  ⟨rfl, rfl, rfl, rfl⟩

/-- Claim C2, amended: the extractors evaluate their strategy lists in
order, and meta-tag strategies use the content attribute (skipping matches
with absent or empty content), but the title strategies (and the non-meta
description strategies) return the first matched element's text even when
that text is empty. -/
theorem c2_strategy_order_amended :
    (∀ (doc : Doc) (e : Elem), doc.selectOne "h1.recipe-title" = some e →
      extract_title doc = e.textStrip) ∧
    (∀ (doc : Doc) (e : Elem) (c : String),
      doc.selectOne "div.recipe-description" = none →
      doc.selectOne "div[itemprop=\"description\"]" = none →
      doc.selectOne "meta[name=\"description\"]" = some e →
      e.content = some c → c ≠ "" →
      extract_description doc = pyStrip c) := by
  constructor
  · intro doc e h
    unfold extract_title titleSelectors
    rw [List.findSome?_cons]
    rw [h]
  · intro doc e c h1 h2 h3 hc hne
    unfold extract_description descriptionSelectors
    unfold descLoop
    rw [if_neg (by decide)]
    rw [h1]
    unfold descLoop
    rw [if_neg (by decide)]
    rw [h2]
    unfold descLoop
    rw [if_pos (by decide)]
    rw [h3]
    dsimp only
    rw [hc]
    dsimp only
    rw [if_pos hne]

/-- Witness for the amended C2 at `docMetaDesc`. -/
theorem c2_witness :
    extract_title docMetaDesc = "" ∧
    extract_description docMetaDesc = pyStrip "Вкусный борщ " :=
  ⟨c2_strategy_order_amended.1 docMetaDesc (textElem "") rfl,
   c2_strategy_order_amended.2 docMetaDesc ⟨"", "", some "Вкусный борщ ", [], []⟩
     "Вкусный борщ " rfl rfl rfl rfl (by decide)⟩

/-- Claim C3: normalization is idempotent on the canonical vocabulary, and
every input whose lowercased period/space-stripped form coincides with a
dictionary key's stripped form normalizes to that key's canonical value —
case and internal period/space placement are immaterial. -/
theorem c3_normalize_idempotent_variants :
    (∀ u ∈ canonicalUnits, normalize_unit u = u) ∧
    (∀ (v : String) (kv : String × String), kv ∈ unit_map →
      stripPS (lowerStr v) = stripPS kv.1 → normalize_unit v = kv.2) := by
  constructor
  · decide
  · intro v kv hmem hkey
    exact normalize_unit_of_matching_key v kv hmem hkey

/-- Witness for C3: the spelling variants of the spec's example all
normalize to the canonical tablespoon symbol. -/
theorem c3_witness :
    normalize_unit "Ст.Л." = "ст.л." ∧
    normalize_unit "ст л" = "ст.л." ∧
    normalize_unit "ст.л" = "ст.л." ∧ "ст.л." ∈ canonicalUnits ∧
    normalize_unit "ст.л." = "ст.л." :=
  ⟨c3_normalize_idempotent_variants.2 "Ст.Л." ("ст.л", "ст.л.") (by decide)
     (by decide),
   c3_normalize_idempotent_variants.2 "ст л" ("ст.л", "ст.л.") (by decide)
     (by decide),
   c3_normalize_idempotent_variants.2 "ст.л" ("ст.л", "ст.л.") (by decide)
     (by decide),
   by decide,
   c3_normalize_idempotent_variants.1 "ст.л." (by decide)⟩

/-- Claim C4: the ingredient-list extractor never returns an empty
sequence, and when neither the structured containers nor the class-pattern
fallback yields a parsed item it returns exactly the two hardcoded
placeholders. -/
theorem c4_ingredients_never_empty (doc : Doc) :
    extract_ingredients doc ≠ [] ∧
    (∀ acc, ingLoop doc ingredientSelectors [] = .inr acc →
      acc ++ parseItems doc.findAllIngredientClass = [] →
      extract_ingredients doc = placeholderIngredients) := by
  constructor
  · unfold extract_ingredients
    cases hloop : ingLoop doc ingredientSelectors [] with
    | inl l =>
      exact ingLoop_inl_ne_nil doc _ _ l hloop
    | inr acc =>
      dsimp only
      by_cases hnil : acc ++ parseItems doc.findAllIngredientClass = []
      · rw [if_pos hnil]
        decide
      · rw [if_neg hnil]
        exact hnil
  · intro acc hloop hnil
    unfold extract_ingredients
    rw [hloop]
    dsimp only
    rw [if_pos hnil]

/-- Witness for C4 at the empty document. -/
theorem c4_witness :
    extract_ingredients emptyDoc ≠ [] ∧
    extract_ingredients emptyDoc = placeholderIngredients :=
  ⟨(c4_ingredients_never_empty emptyDoc).1,
   (c4_ingredients_never_empty emptyDoc).2 [] rfl rfl⟩

/-- Claim C5: a failed fetch (network error, timeout, bad HTTP status or
unparseable content, all collapsed by `fetch_page` into a `False` result)
makes the top-level parse return no recipe; no extractor output reaches
the caller. -/
theorem c5_fetch_failure_no_recipe : parse_recipe none = none := rfl

/-- Claim C6: whichever of the two patterns matches, the captured quantity
has its decimal commas rewritten to points, the captured name is trimmed
and the captured unit is stripped and normalized; in particular
`"500,5 г муки"` parses to quantity `"500.5"`, unit `"г"`, name `"муки"`. -/
theorem c6_decimal_normalization :
    parse_ingredient_string "500,5 г муки" =
      some ⟨"муки", "500.5", "г"⟩ ∧
    (∀ text q u n, runPat pattern1 text = some (q, u, n) →
      parse_ingredient_string text =
        some ⟨pyStrip n, replaceComma q, normalize_unit (pyStrip u)⟩) ∧
    (∀ text q u n, runPat pattern1 text = none →
      runPat pattern2 text = some (n, q, u) →
      parse_ingredient_string text =
        some ⟨pyStrip n, replaceComma q, normalize_unit (pyStrip u)⟩) := by
  refine ⟨by decide, ?_, ?_⟩
  · intro text q u n h
    unfold parse_ingredient_string
    rw [h]
  · intro text q u n h1 h2
    unfold parse_ingredient_string
    rw [h1, h2]

/-- Witness for C6 at the spec's example line. -/
theorem c6_witness :
    runPat pattern1 "500,5 г муки" = some ("500,5", "г", "муки") ∧
    parse_ingredient_string "500,5 г муки" =
      some ⟨pyStrip "муки", replaceComma "500,5", normalize_unit (pyStrip "г")⟩ :=
  ⟨by decide,
   c6_decimal_normalization.2.1 "500,5 г муки" "500,5" "г" "муки" (by decide)⟩

/-- Claim C7: a line matched by the quantity-first pattern yields the
quantity-first interpretation even when the name-first pattern matches it
too, because the patterns are tried in that order. -/
theorem c7_pattern_precedence (text q u n : String)
    (h1 : runPat pattern1 text = some (q, u, n))
    (_h2 : (runPat pattern2 text).isSome) :
    parse_ingredient_string text =
      some ⟨pyStrip n, replaceComma q, normalize_unit (pyStrip u)⟩ := by
  unfold parse_ingredient_string
  rw [h1]

/-- Witness for C7: a line both patterns match, resolved quantity-first. -/
theorem c7_witness :
    runPat pattern1 "2 шт – перец – 3 кг" = some ("2", "шт", "перец – 3 кг") ∧
    runPat pattern2 "2 шт – перец – 3 кг" = some ("2 шт – перец", "3", "кг") ∧
    parse_ingredient_string "2 шт – перец – 3 кг" =
      some ⟨pyStrip "перец – 3 кг", replaceComma "2", normalize_unit (pyStrip "шт")⟩ :=
  ⟨by decide, by decide,
   c7_pattern_precedence "2 шт – перец – 3 кг" "2" "шт" "перец – 3 кг"
     (by decide) (by decide)⟩

/-- Claim C8: a line neither pattern matches becomes a whole-line
ingredient with quantity `"1"` and unit `"шт"` when longer than two
characters, and is silently dropped (`None`) otherwise. -/
theorem c8_unmatched_line_fallback (text : String)
    (h1 : runPat pattern1 text = none)
    (h2 : runPat pattern2 text = none) :
    parse_ingredient_string text =
      if 2 < text.length then some ⟨text, "1", "шт"⟩ else none := by
  unfold parse_ingredient_string
  rw [h1, h2]

/-- Witness for C8: the short line `"и"` is dropped, the longer
pattern-free line `"яйца вареные"` is kept whole. -/
theorem c8_witness :
    parse_ingredient_string "и" = none ∧
    parse_ingredient_string "яйца вареные" = some ⟨"яйца вареные", "1", "шт"⟩ := by
  constructor
  · rw [c8_unmatched_line_fallback "и" (by decide) (by decide)]
    decide
  · rw [c8_unmatched_line_fallback "яйца вареные" (by decide) (by decide)]
    decide

/-- Claim C9: when no dictionary key matches after case, period and space
normalization, the normalizer returns its input unchanged (and, being a
total function, never fails). -/
theorem c9_normalize_passthrough (s : String)
    (h : unit_map.find? (fun kv => stripPS kv.1 == stripPS (lowerStr s)) = none) :
    normalize_unit s = s := by
  have hdef : normalize_unit s =
      match unit_map.find? (fun kv => stripPS kv.1 == stripPS (lowerStr s)) with
      | some kv => kv.2
      | none => s := rfl
  rw [hdef, h]

/-- Witness for C9 at an out-of-vocabulary unit. -/
theorem c9_witness : normalize_unit "bunch" = "bunch" :=
  c9_normalize_passthrough "bunch" (by decide)

/-- Claim C10: every quantity the per-item parser emits — through either
pattern branch or the whole-line fallback — is a non-empty comma-free
string of the shape digit-run, optionally a point and a digit-run. -/
theorem c10_quantity_shape_invariant (text : String) (r : Ingredient)
    (h : parse_ingredient_string text = some r) :
    r.quantity ≠ "" ∧ ',' ∉ r.quantity.data ∧ QuantShape r.quantity := by
  have hq : QuantShape r.quantity := by
    unfold parse_ingredient_string at h
    cases h1 : runPat pattern1 text with
    | some t =>
      obtain ⟨q, u, n⟩ := t
      rw [h1] at h
      dsimp only at h
      cases h
      exact quantShape_replaceComma (runPat1_quantity h1)
    | none =>
      rw [h1] at h
      dsimp only at h
      cases h2 : runPat pattern2 text with
      | some t =>
        obtain ⟨n, q, u⟩ := t
        rw [h2] at h
        dsimp only at h
        cases h
        exact quantShape_replaceComma (runPat2_quantity h2)
      | none =>
        rw [h2] at h
        dsimp only at h
        by_cases hl : 2 < text.length
        · rw [if_pos hl] at h
          cases h
          exact ⟨['1'], by decide, by decide, Or.inl rfl⟩
        · rw [if_neg hl] at h
          cases h
  refine ⟨?_, ?_, hq⟩
  · obtain ⟨d1, hne, _, hcase⟩ := hq
    intro hempty
    have hdata : r.quantity.data = [] := by rw [hempty]
    rcases hcase with hc | ⟨d2, _, _, hc⟩
    · exact hne (hc.symm.trans hdata)
    · rw [hc] at hdata
      simp at hdata
  · obtain ⟨d1, _, hdig, hcase⟩ := hq
    intro hmem
    rcases hcase with hc | ⟨d2, _, hdig2, hc⟩
    · rw [hc] at hmem
      exact absurd (hdig ',' hmem) (by decide)
    · rw [hc] at hmem
      rcases List.mem_append.mp hmem with hA | hB
      · exact absurd (hdig ',' hA) (by decide)
      · rcases List.mem_cons.mp hB with hcc | hC
        · cases hcc
        · exact absurd (hdig2 ',' hC) (by decide)

/-- Witness for C10 at a comma-decimal line. -/
theorem c10_witness :
    ("2.5" : String) ≠ "" ∧ ',' ∉ ("2.5" : String).data ∧ QuantShape "2.5" :=
  c10_quantity_shape_invariant "2,5 кг сахара" ⟨"сахара", "2.5", "кг"⟩ (by decide)

end RecipeParse
